import Mathlib

/-!
Shallow embedding of the chip8 emulator core (repository charithe/chip8),
translated from `src/emulator/interpreter.rs`, `src/emulator/display.rs` and
`src/emulator/implementation.rs`.

Modelling conventions:
* Rust `u8` / `u16` / `usize` are modelled as `Nat`, with an explicit `% 256`
  (resp. `% 65536`) wherever the Rust operation wraps (release semantics).
* Fixed-size Rust arrays (`[u8; 4096]`, `[bool; 16]`, `[u8; 2048]`, ...) are
  modelled as `List`s accessed with `getD` / `set`; the constructors create
  them with the right lengths.
* An index expression that can go out of bounds at run time in Rust
  (a panic) is modelled by returning `none` from the enclosing function:
  the whole execution step has type `Option (Except Error (Option Step) × Emulator)`,
  where `none` is a Rust panic, `Except.error` a propagated `Error`.
* Register indices produced by the decoder are single nibbles, hence `< 16`;
  `vx` accesses use `getD`/`set`, which agree with Rust indexing there.
-/

/-- Decidable equality for `Except`, needed to evaluate claims about
fallible operations on concrete inputs. -/
instance {ε α : Type} [DecidableEq ε] [DecidableEq α] : DecidableEq (Except ε α) := fun a b =>
  match a, b with
  | .ok x, .ok y =>
    if h : x = y then isTrue (by rw [h]) else isFalse (by simp [h])
  | .error x, .error y =>
    if h : x = y then isTrue (by rw [h]) else isFalse (by simp [h])
  | .ok _, .error _ => isFalse (by simp)
  | .error _, .ok _ => isFalse (by simp)

namespace Chip8

/-- `Error` from `src/emulator/common.rs` (the two wrapper variants that carry
host-side values, `IOError` and `Unexpected`, are not reachable in the modelled
core, which reads the ROM from a pure list of bytes). -/
inductive Error where
  | InvalidROM
  | EndOfROM
  | UnknownInstruction (w : Nat)
  | StackOverflow
  | StackUnderflow
deriving DecidableEq

/-- `Op` from `src/emulator/interpreter.rs`; `Register`/`Value`/`Address`
newtypes are flattened to `Nat` fields. -/
inductive Op where
  | ADD (reg : Nat) (val : Nat)
  | ADDI (reg : Nat)
  | ADDR (reg1 reg2 : Nat)
  | AND (reg1 reg2 : Nat)
  | CALL (addr : Nat)
  | CLS
  | CPDT (reg : Nat)
  | DRW (reg1 reg2 : Nat) (val : Nat)
  | JP (addr : Nat)
  | JPREL (addr : Nat)
  | LD (reg : Nat) (val : Nat)
  | LDDT (reg : Nat)
  | LDI (addr : Nat)
  | LDIB (reg : Nat)
  | LDIM (reg : Nat)
  | LDIR (reg : Nat)
  | LDIS (reg : Nat)
  | LDKP (reg : Nat)
  | LDR (reg1 reg2 : Nat)
  | LDST (reg : Nat)
  | OR (reg1 reg2 : Nat)
  | RET
  | RND (reg : Nat) (val : Nat)
  | SE (reg : Nat) (val : Nat)
  | SER (reg1 reg2 : Nat)
  | SHL (reg : Nat)
  | SHR (reg : Nat)
  | SKNP (reg : Nat)
  | SKP (reg : Nat)
  | SNE (reg : Nat) (val : Nat)
  | SNER (reg1 reg2 : Nat)
  | SUB (reg1 reg2 : Nat)
  | SUBN (reg1 reg2 : Nat)
  | SYS (addr : Nat)
  | XOR (reg1 reg2 : Nat)
deriving DecidableEq

/-- `Instruction::second_nibble` (for instruction word `ABCD`, the `B`). -/
def second_nibble (ins : Nat) : Nat := (ins &&& 0x0F00) >>> 8

/-- `Instruction::third_nibble` (for instruction word `ABCD`, the `C`). -/
def third_nibble (ins : Nat) : Nat := (ins &&& 0x00F0) >>> 4

/-- `Instruction::last_byte` (for instruction word `ABCD`, the `CD`). -/
def last_byte (ins : Nat) : Nat := ins &&& 0x00FF

/-- `Instruction::addr` (for instruction word `ABCD`, the `BCD`). -/
def addr_field (ins : Nat) : Nat := ins &&& 0x0FFF

/-- `Instruction::interpret` from `src/emulator/interpreter.rs`: dispatch on
the top nibble, then on the low nibble (`0x8`, `0x9` families) or low byte
(`0xE`, `0xF` families). -/
def interpret (ins : Nat) : Except Error Op :=
  if ins &&& 0xF000 = 0x0000 then
    if ins = 0x00E0 then .ok .CLS
    else if ins = 0x00EE then .ok .RET
    else .ok (.SYS (addr_field ins))
  else if ins &&& 0xF000 = 0x1000 then .ok (.JP (addr_field ins))
  else if ins &&& 0xF000 = 0x2000 then .ok (.CALL (addr_field ins))
  else if ins &&& 0xF000 = 0x3000 then .ok (.SE (second_nibble ins) (last_byte ins))
  else if ins &&& 0xF000 = 0x4000 then .ok (.SNE (second_nibble ins) (last_byte ins))
  else if ins &&& 0xF000 = 0x5000 then .ok (.SER (second_nibble ins) (third_nibble ins))
  else if ins &&& 0xF000 = 0x6000 then .ok (.LD (second_nibble ins) (last_byte ins))
  else if ins &&& 0xF000 = 0x7000 then .ok (.ADD (second_nibble ins) (last_byte ins))
  else if ins &&& 0xF000 = 0x8000 then
    if ins &&& 0x000F = 0x0 then .ok (.LDR (second_nibble ins) (third_nibble ins))
    else if ins &&& 0x000F = 0x1 then .ok (.OR (second_nibble ins) (third_nibble ins))
    else if ins &&& 0x000F = 0x2 then .ok (.AND (second_nibble ins) (third_nibble ins))
    else if ins &&& 0x000F = 0x3 then .ok (.XOR (second_nibble ins) (third_nibble ins))
    else if ins &&& 0x000F = 0x4 then .ok (.ADDR (second_nibble ins) (third_nibble ins))
    else if ins &&& 0x000F = 0x5 then .ok (.SUB (second_nibble ins) (third_nibble ins))
    else if ins &&& 0x000F = 0x6 then .ok (.SHR (second_nibble ins))
    else if ins &&& 0x000F = 0x7 then .ok (.SUBN (second_nibble ins) (third_nibble ins))
    else if ins &&& 0x000F = 0xE then .ok (.SHL (second_nibble ins))
    else .error (.UnknownInstruction ins)
  else if ins &&& 0xF000 = 0x9000 then
    if ins &&& 0x000F = 0x0 then .ok (.SNER (second_nibble ins) (third_nibble ins))
    else .error (.UnknownInstruction ins)
  else if ins &&& 0xF000 = 0xA000 then .ok (.LDI (addr_field ins))
  else if ins &&& 0xF000 = 0xB000 then .ok (.JPREL (addr_field ins))
  else if ins &&& 0xF000 = 0xC000 then .ok (.RND (second_nibble ins) (last_byte ins))
  else if ins &&& 0xF000 = 0xD000 then .ok (.DRW (second_nibble ins) (third_nibble ins) (ins &&& 0x000F))
  else if ins &&& 0xF000 = 0xE000 then
    if ins &&& 0x00FF = 0x9E then .ok (.SKP (second_nibble ins))
    else if ins &&& 0x00FF = 0xA1 then .ok (.SKNP (second_nibble ins))
    else .error (.UnknownInstruction ins)
  else if ins &&& 0xF000 = 0xF000 then
    if ins &&& 0x00FF = 0x07 then .ok (.CPDT (second_nibble ins))
    else if ins &&& 0x00FF = 0x0A then .ok (.LDKP (second_nibble ins))
    else if ins &&& 0x00FF = 0x15 then .ok (.LDDT (second_nibble ins))
    else if ins &&& 0x00FF = 0x18 then .ok (.LDST (second_nibble ins))
    else if ins &&& 0x00FF = 0x1E then .ok (.ADDI (second_nibble ins))
    else if ins &&& 0x00FF = 0x29 then .ok (.LDIS (second_nibble ins))
    else if ins &&& 0x00FF = 0x33 then .ok (.LDIB (second_nibble ins))
    else if ins &&& 0x00FF = 0x55 then .ok (.LDIR (second_nibble ins))
    else if ins &&& 0x00FF = 0x65 then .ok (.LDIM (second_nibble ins))
    else .error (.UnknownInstruction ins)
  else .error (.UnknownInstruction ins)

/-- `to_bcd` from `src/emulator/interpreter.rs`. -/
def to_bcd (v : Nat) : List Nat :=
  [v / 100, (v % 100) / 10, (v % 100) % 10]

/-! ## Display (`src/emulator/display.rs`) -/

/-- `Pixel` from `src/emulator/display.rs`. -/
structure Pixel where
  x : Nat
  y : Nat
  value : Nat
deriving DecidableEq

/-- `Sprite` from `src/emulator/display.rs`. -/
structure Sprite where
  x : Nat
  y : Nat
  data : List Nat
deriving DecidableEq

/-- `Screen` from `src/emulator/display.rs`: a 64×32 row-major grid of `u8`
cells (2048 entries, each 0 or 1 at run time). -/
structure Screen where
  pixels : List Nat
deriving DecidableEq

/-- `Screen::default`. -/
def Screen.default : Screen := ⟨List.replicate 2048 0⟩

/-- `Screen::clear`. -/
def Screen.clear (_s : Screen) : Screen := ⟨List.replicate 2048 0⟩

/-- `Screen::calc_index`: both `base_x + x` and `base_y + y` are `u8`
additions (wrap mod 256) before being widened to `u64`. -/
def calc_index (baseX baseY x y : Nat) : Nat :=
  ((baseX + x) % 256) + ((baseY + y) % 256) * 64

/-- The inner loop of `Screen::draw`, over the remaining column offsets `ws`
of one sprite row `v` (row number `h`): carries the collision flag `vf` and
the pixel array, and reports `true` when the early `return Some(vf)` fired
(`index >= self.pixels.len()`).  `h as u8` is `h % 256`; the XOR with 1
cannot leave the `u8` range. -/
def blitRow (x y h v : Nat) : List Nat → Nat → List Nat → Nat × List Nat × Bool
  | [], vf, px => (vf, px, false)
  | w :: ws, vf, px =>
    if v &&& (0x80 >>> w) ≠ 0 then
      let idx := calc_index x y w (h % 256)
      if px.length ≤ idx then (vf, px, true)
      else
        blitRow x y h v ws (if px.getD idx 0 = 1 then 1 else vf)
          (px.set idx ((px.getD idx 0) ^^^ 1))
    else
      blitRow x y h v ws vf px

/-- The outer loop of `Screen::draw`, over the sprite rows (`h` is the row
counter from `enumerate()`); an early return from a row ends the draw. -/
def blitRows (x y width : Nat) : List Nat → Nat → Nat → List Nat → Nat × List Nat
  | [], _, vf, px => (vf, px)
  | v :: rows, h, vf, px =>
    match blitRow x y h v (List.range width) vf px with
    | (vf2, px2, true) => (vf2, px2)
    | (vf2, px2, false) => blitRows x y width rows (h + 1) vf2 px2

/-- `Screen::draw`: rejects an out-of-grid origin with `none` (no effect),
otherwise clips the sprite width at the right edge and XOR-blits row by row,
returning the collision flag. -/
def Screen.draw (s : Screen) (sp : Sprite) : Option Nat × Screen :=
  if 64 ≤ sp.x ∨ 32 ≤ sp.y then (none, s)
  else
    let width := if 64 - 8 ≤ sp.x then 64 - sp.x else 8
    let r := blitRows sp.x sp.y width sp.data 0 0 s.pixels
    (some r.1, ⟨r.2⟩)

/-- `Screen::pixels`: the list of lit cells with their coordinates. -/
def Screen.pixelsList (s : Screen) : List Pixel :=
  (List.range s.pixels.length).filterMap (fun i =>
    let v := s.pixels.getD i 0
    if v = 0 then none
    else some ⟨i % 64, i / 64, v⟩)

/-! ## Emulator (`src/emulator/implementation.rs`) -/

/-- `Step` from `src/emulator/implementation.rs`. -/
inductive Step where
  | Nop
  | Draw (px : List Pixel)
  | WaitForKey
  | Exit
deriving DecidableEq

/-- `FONT_SET` from `src/emulator/implementation.rs` (16 glyphs × 5 bytes). -/
def FONT_SET : List Nat :=
  [0xF0, 0x90, 0x90, 0x90, 0xF0,
   0x20, 0x60, 0x20, 0x20, 0x70,
   0xF0, 0x10, 0xF0, 0x80, 0xF0,
   0xF0, 0x10, 0xF0, 0x10, 0xF0,
   0x90, 0x90, 0xF0, 0x10, 0x10,
   0xF0, 0x80, 0xF0, 0x10, 0xF0,
   0xF0, 0x80, 0xF0, 0x90, 0xF0,
   0xF0, 0x10, 0x20, 0x40, 0x40,
   0xF0, 0x90, 0xF0, 0x90, 0xF0,
   0xF0, 0x90, 0xF0, 0x10, 0xF0,
   0xF0, 0x90, 0xF0, 0x90, 0x90,
   0xE0, 0x90, 0xE0, 0x90, 0xE0,
   0xF0, 0x80, 0x80, 0x80, 0xF0,
   0xE0, 0x90, 0x90, 0x90, 0xE0,
   0xF0, 0x80, 0xF0, 0x80, 0xF0,
   0xF0, 0x80, 0xF0, 0x80, 0x80]

/-- `Emulator` from `src/emulator/implementation.rs`.  The extra field `rng`
is the injected stream of random bytes consumed by `do_rnd` (the Rust code
draws from `rand::thread_rng()`; the spec requires the source to be
injectable/seedable). -/
structure Emulator where
  vx : List Nat
  dt : Nat
  st : Nat
  sp : Nat
  i : Nat
  pc : Nat
  memory : List Nat
  stack : List Nat
  screen : Screen
  keyboard : List Bool
  rom_end : Nat
  rng : List Nat
deriving DecidableEq

/-- A Rust panic (out-of-bounds index) aborts the step with no resulting
state: `none`.  Otherwise the per-step result is the Rust
`StepResult = Result<Option<Step>>` paired with the mutated emulator. -/
abbrev StepOutcome := Option (Except Error (Option Step) × Emulator)

/-- `Emulator::unload_rom`: zero the program region `[512, 4096)` and reset
`rom_end`. -/
def unload_rom (e : Emulator) : Emulator :=
  { e with memory := e.memory.take 512 ++ List.replicate (4096 - 512) 0,
           rom_end := 512 }

/-- The byte-copying loop of `Emulator::load_rom`: writes each byte at
`i + 512`, increments `i`, and only then checks `i + 512 >= 4096`, failing
with `InvalidROM`.  Returns the final `i` and memory. -/
def load_rom_loop : List Nat → Nat → List Nat → Except Error (Nat × List Nat)
  | [], i, mem => .ok (i, mem)
  | b :: rest, i, mem =>
    let mem2 := mem.set (i + 512) b
    if i + 1 + 512 ≥ 4096 then .error .InvalidROM
    else load_rom_loop rest (i + 1) mem2

/-- `Emulator::load_rom` over a pure byte list (no I/O errors). -/
def load_rom (e : Emulator) (rom : List Nat) : Except Error Emulator :=
  let e2 := unload_rom e
  match load_rom_loop rom 0 e2.memory with
  | .error err => .error err
  | .ok (i, mem) => .ok { e2 with memory := mem, rom_end := i + 512 }

/-- The emulator state `Emulator::new` builds before loading the ROM:
zeroed registers, `pc = 512`, the font copied to `memory[..80]`. -/
def initEmu (rng : List Nat) : Emulator :=
  { vx := List.replicate 16 0,
    dt := 0, st := 0, sp := 0, i := 0, pc := 512,
    memory := FONT_SET ++ List.replicate (4096 - 80) 0,
    stack := List.replicate 16 0,
    screen := Screen.default,
    keyboard := List.replicate 16 false,
    rom_end := 0,
    rng := rng }

/-- `Emulator::new`: the initial state with the ROM loaded; construction
fails (returning no emulator) if `load_rom` does.  `rng` is the injected
random-byte stream. -/
def Emulator.new (rom : List Nat) (rng : List Nat := []) : Except Error Emulator :=
  load_rom (initEmu rng) rom

/-- `Emulator::next_instruction`: `None` when the PC is outside
`[512, rom_end)`; otherwise the big-endian word at `pc`, advancing `pc` by 2
(the `memory[pc + 1]` access is bounds-checked like every Rust index). -/
def next_instruction (e : Emulator) : Option (Option Nat × Emulator) :=
  if e.pc < 512 ∨ e.pc ≥ e.rom_end then some (none, e)
  else
    match e.memory.get? e.pc, e.memory.get? (e.pc + 1) with
    | some hi, some lo => some (some ((hi <<< 8) ||| lo), { e with pc := e.pc + 2 })
    | _, _ => none

/-- `Emulator::pressed_key`: the lowest-indexed pressed key, if any. -/
def pressed_key (e : Emulator) : Option Nat :=
  (List.range e.keyboard.length).find? (fun k => e.keyboard.getD k false)

/-- `Emulator::is_pressed`: a direct array index `keyboard[key]`; a key value
outside the array is a Rust panic, modelled as `none`. -/
def is_pressed (e : Emulator) (key : Nat) : Option Bool :=
  if h : key < e.keyboard.length then some (e.keyboard.get ⟨key, h⟩) else none

/-- `Emulator::push_to_stack`: fails with `StackOverflow` (state untouched)
when the stack pointer has reached 16. -/
def push_to_stack (e : Emulator) (val : Nat) : Except Error Emulator :=
  if e.sp ≥ 16 then .error .StackOverflow
  else .ok { e with stack := e.stack.set e.sp val, sp := e.sp + 1 }

/-- `Emulator::pop_from_stack`: fails with `StackUnderflow` (state untouched)
when the stack is empty. -/
def pop_from_stack (e : Emulator) : Except Error (Nat × Emulator) :=
  if e.sp = 0 then .error .StackUnderflow
  else .ok (e.stack.getD (e.sp - 1) 0, { e with sp := e.sp - 1 })

/-- `Emulator::do_add` (7xNN): the operands are widened to `u16`, added, and
truncated back to `u8`; the flag register is not touched. -/
def do_add (e : Emulator) (reg val : Nat) : StepOutcome :=
  let a := e.vx.getD reg 0
  some (.ok (some .Nop), { e with vx := e.vx.set reg ((a + val) % 256) })

/-- `Emulator::do_addi` (Fx1E): `u16` addition into `I` (wraps mod 2^16). -/
def do_addi (e : Emulator) (reg : Nat) : StepOutcome :=
  some (.ok (some .Nop), { e with i := (e.i + e.vx.getD reg 0) % 65536 })

/-- `Emulator::do_addr` (8xy4): `overflowing_add` on `u8`. -/
def do_addr (e : Emulator) (reg1 reg2 : Nat) : StepOutcome :=
  let a := e.vx.getD reg1 0
  let b := e.vx.getD reg2 0
  let vx2 := (e.vx.set reg1 ((a + b) % 256)).set 0xF (if a + b ≥ 256 then 1 else 0)
  some (.ok (some .Nop), { e with vx := vx2 })

/-- `Emulator::do_and` (8xy2). -/
def do_and (e : Emulator) (reg1 reg2 : Nat) : StepOutcome :=
  some (.ok (some .Nop),
        { e with vx := e.vx.set reg1 (e.vx.getD reg1 0 &&& e.vx.getD reg2 0) })

/-- `Emulator::do_call` (2nnn): push the post-fetch PC, then jump; a push
failure propagates with the state unchanged. -/
def do_call (e : Emulator) (addr : Nat) : StepOutcome :=
  match push_to_stack e e.pc with
  | .error err => some (.error err, e)
  | .ok e2 => some (.ok (some .Nop), { e2 with pc := addr })

/-- `Emulator::do_cls` (00E0). -/
def do_cls (e : Emulator) : StepOutcome :=
  let scr := e.screen.clear
  some (.ok (some (.Draw scr.pixelsList)), { e with screen := scr })

/-- `Emulator::do_cpdt` (Fx07). -/
def do_cpdt (e : Emulator) (reg : Nat) : StepOutcome :=
  some (.ok (some .Nop), { e with vx := e.vx.set reg e.dt })

/-- `Emulator::do_drw` (Dxyn): slices `memory[i..i+n]` (a Rust panic when the
slice is out of range, with `i + n` computed in `u16`); `VF` receives the
collision flag only when `draw` returns one. -/
def do_drw (e : Emulator) (reg1 reg2 n : Nat) : StepOutcome :=
  let x := e.vx.getD reg1 0
  let y := e.vx.getD reg2 0
  let stop := (e.i + n) % 65536
  if e.i ≤ stop ∧ stop ≤ e.memory.length then
    let sprite_data := (List.range (stop - e.i)).map (fun j => e.memory.getD (e.i + j) 0)
    let r := e.screen.draw ⟨x, y, sprite_data⟩
    let e2 := { e with screen := r.2 }
    let e3 := match r.1 with
      | some v => { e2 with vx := e2.vx.set 0xF v }
      | none => e2
    some (.ok (some (.Draw e3.screen.pixelsList)), e3)
  else none

/-- `Emulator::do_jp` (1nnn). -/
def do_jp (e : Emulator) (addr : Nat) : StepOutcome :=
  some (.ok (some .Nop), { e with pc := addr })

/-- `Emulator::do_jprel` (Bnnn): `pc = addr` then `pc += V0` (usize). -/
def do_jprel (e : Emulator) (addr : Nat) : StepOutcome :=
  some (.ok (some .Nop), { e with pc := addr + e.vx.getD 0 0 })

/-- `Emulator::do_ld` (6xNN). -/
def do_ld (e : Emulator) (reg val : Nat) : StepOutcome :=
  some (.ok (some .Nop), { e with vx := e.vx.set reg val })

/-- `Emulator::do_lddt` (Fx15). -/
def do_lddt (e : Emulator) (reg : Nat) : StepOutcome :=
  some (.ok (some .Nop), { e with dt := e.vx.getD reg 0 })

/-- `Emulator::do_ldi` (Annn). -/
def do_ldi (e : Emulator) (addr : Nat) : StepOutcome :=
  some (.ok (some .Nop), { e with i := addr })

/-- `Emulator::do_ldib` (Fx33): BCD digits written to `memory[i..i+3]`
(each write is a bounds-checked Rust index). -/
def do_ldib (e : Emulator) (reg : Nat) : StepOutcome :=
  let bcd := to_bcd (e.vx.getD reg 0)
  if e.i + 2 < e.memory.length then
    some (.ok (some .Nop),
          { e with memory := ((e.memory.set e.i (bcd.getD 0 0)).set (e.i + 1)
              (bcd.getD 1 0)).set (e.i + 2) (bcd.getD 2 0) })
  else none

/-- `Emulator::do_ldim` (Fx65): load `V0..=Vx` from `memory[i..]`
(bounds-checked reads). -/
def do_ldim (e : Emulator) (reg : Nat) : StepOutcome :=
  if e.i + reg < e.memory.length then
    some (.ok (some .Nop),
          { e with vx := ((List.range (reg + 1)).foldl
              (fun vx r => vx.set r (e.memory.getD (e.i + r) 0)) e.vx) })
  else none

/-- `Emulator::do_ldir` (Fx55): store `V0..=Vx` at `memory[i..]`
(bounds-checked writes). -/
def do_ldir (e : Emulator) (reg : Nat) : StepOutcome :=
  if e.i + reg < e.memory.length then
    some (.ok (some .Nop),
          { e with memory := ((List.range (reg + 1)).foldl
              (fun mem r => mem.set (e.i + r) (e.vx.getD r 0)) e.memory) })
  else none

/-- `Emulator::do_ldis` (Fx29): `digit * 4` is a `u8` multiplication, so it
wraps mod 256 (release semantics) before the cast to `u16`. -/
def do_ldis (e : Emulator) (reg : Nat) : StepOutcome :=
  some (.ok (some .Nop), { e with i := (e.vx.getD reg 0 * 4) % 256 })

/-- `Emulator::do_ldkp` (Fx0A): with no key pressed, rewind the PC by 2 and
signal `WaitForKey`; otherwise load the lowest pressed key's code. -/
def do_ldkp (e : Emulator) (reg : Nat) : StepOutcome :=
  match pressed_key e with
  | some key => some (.ok (some .Nop), { e with vx := e.vx.set reg key })
  | none => some (.ok (some .WaitForKey), { e with pc := e.pc - 2 })

/-- `Emulator::do_ldr` (8xy0). -/
def do_ldr (e : Emulator) (reg1 reg2 : Nat) : StepOutcome :=
  some (.ok (some .Nop), { e with vx := e.vx.set reg1 (e.vx.getD reg2 0) })

/-- `Emulator::do_ldst` (Fx18). -/
def do_ldst (e : Emulator) (reg : Nat) : StepOutcome :=
  some (.ok (some .Nop), { e with st := e.vx.getD reg 0 })

/-- `Emulator::do_or` (8xy1). -/
def do_or (e : Emulator) (reg1 reg2 : Nat) : StepOutcome :=
  some (.ok (some .Nop),
        { e with vx := e.vx.set reg1 (e.vx.getD reg1 0 ||| e.vx.getD reg2 0) })

/-- `Emulator::do_ret` (00EE): pop and jump; a pop failure propagates with
the state unchanged. -/
def do_ret (e : Emulator) : StepOutcome :=
  match pop_from_stack e with
  | .error err => some (.error err, e)
  | .ok (addr, e2) => some (.ok (some .Nop), { e2 with pc := addr })

/-- `Emulator::do_rnd` (CxNN): a random byte drawn from
`gen_range(0, 255)` (uniform on `[0, 255)`), masked by the immediate; the
injected stream stands in for `thread_rng`. -/
def do_rnd (e : Emulator) (reg val : Nat) : StepOutcome :=
  let r := e.rng.headD 0 % 255
  some (.ok (some .Nop),
        { e with vx := e.vx.set reg (r &&& val), rng := e.rng.tail })

/-- `Emulator::do_se` (3xNN). -/
def do_se (e : Emulator) (reg val : Nat) : StepOutcome :=
  some (.ok (some .Nop),
        if e.vx.getD reg 0 = val then { e with pc := e.pc + 2 } else e)

/-- `Emulator::do_ser` (5xy0). -/
def do_ser (e : Emulator) (reg1 reg2 : Nat) : StepOutcome :=
  some (.ok (some .Nop),
        if e.vx.getD reg1 0 = e.vx.getD reg2 0 then { e with pc := e.pc + 2 } else e)

/-- `Emulator::do_shl` (8xyE): `VF` receives the high bit, then the value is
shifted left with `u8` wraparound. -/
def do_shl (e : Emulator) (reg : Nat) : StepOutcome :=
  let flag := if e.vx.getD reg 0 &&& 0x80 = 0 then 0 else 1
  let vx2 := e.vx.set 0xF flag
  some (.ok (some .Nop),
        { e with vx := vx2.set reg ((vx2.getD reg 0 <<< 1) % 256) })

/-- `Emulator::do_shr` (8xy6): `VF` receives the low bit, then shift right. -/
def do_shr (e : Emulator) (reg : Nat) : StepOutcome :=
  let vx2 := e.vx.set 0xF (e.vx.getD reg 0 &&& 0x01)
  some (.ok (some .Nop), { e with vx := vx2.set reg (vx2.getD reg 0 >>> 1) })

/-- `Emulator::do_sknp` (ExA1): skip when the key in `Vx` is not pressed;
the keypad access is unguarded, so a key value `≥ 16` is a panic. -/
def do_sknp (e : Emulator) (reg : Nat) : StepOutcome :=
  match is_pressed e (e.vx.getD reg 0) with
  | none => none
  | some b =>
    some (.ok (some .Nop), if ¬b then { e with pc := e.pc + 2 } else e)

/-- `Emulator::do_skp` (Ex9E): skip when the key in `Vx` is pressed; the
keypad access is unguarded, so a key value `≥ 16` is a panic. -/
def do_skp (e : Emulator) (reg : Nat) : StepOutcome :=
  match is_pressed e (e.vx.getD reg 0) with
  | none => none
  | some b =>
    some (.ok (some .Nop), if b then { e with pc := e.pc + 2 } else e)

/-- `Emulator::do_sne` (4xNN). -/
def do_sne (e : Emulator) (reg val : Nat) : StepOutcome :=
  some (.ok (some .Nop),
        if e.vx.getD reg 0 ≠ val then { e with pc := e.pc + 2 } else e)

/-- `Emulator::do_sner` (9xy0). -/
def do_sner (e : Emulator) (reg1 reg2 : Nat) : StepOutcome :=
  some (.ok (some .Nop),
        if e.vx.getD reg1 0 ≠ e.vx.getD reg2 0 then { e with pc := e.pc + 2 } else e)

/-- `Emulator::do_sub` (8xy5): `overflowing_sub` on `u8` — the result wraps
mod 256 and the flag reports the borrow (`Vx < Vy`); the difference is
written to `Vx` first, the flag to `VF` second. -/
def do_sub (e : Emulator) (reg1 reg2 : Nat) : StepOutcome :=
  let a := e.vx.getD reg1 0
  let b := e.vx.getD reg2 0
  let vx2 := (e.vx.set reg1 ((a + 256 - b) % 256)).set 0xF (if a < b then 1 else 0)
  some (.ok (some .Nop), { e with vx := vx2 })

/-- `Emulator::do_subn` (8xy7): the flag (`1` iff `Vy > Vx`) is written
first, then `Vx` is set to `Vy.saturating_sub(Vx)` — a truncated, not
wrapping, subtraction, re-reading the registers after the flag write. -/
def do_subn (e : Emulator) (reg1 reg2 : Nat) : StepOutcome :=
  let flag := if e.vx.getD reg2 0 > e.vx.getD reg1 0 then 1 else 0
  let vx2 := e.vx.set 0xF flag
  some (.ok (some .Nop),
        { e with vx := vx2.set reg1 (vx2.getD reg2 0 - vx2.getD reg1 0) })

/-- `Emulator::do_sys` (0nnn): ignored. -/
def do_sys (e : Emulator) (_addr : Nat) : StepOutcome :=
  some (.ok (some .Nop), e)

/-- `Emulator::do_xor` (8xy3). -/
def do_xor (e : Emulator) (reg1 reg2 : Nat) : StepOutcome :=
  some (.ok (some .Nop),
        { e with vx := e.vx.set reg1 (e.vx.getD reg1 0 ^^^ e.vx.getD reg2 0) })

/-- The instruction dispatch of `Emulator::step`. -/
def exec (e : Emulator) : Op → StepOutcome
  | .ADD reg val => do_add e reg val
  | .ADDI reg => do_addi e reg
  | .ADDR r1 r2 => do_addr e r1 r2
  | .AND r1 r2 => do_and e r1 r2
  | .CALL addr => do_call e addr
  | .CLS => do_cls e
  | .CPDT reg => do_cpdt e reg
  | .DRW r1 r2 n => do_drw e r1 r2 n
  | .JP addr => do_jp e addr
  | .JPREL addr => do_jprel e addr
  | .LD reg val => do_ld e reg val
  | .LDDT reg => do_lddt e reg
  | .LDI addr => do_ldi e addr
  | .LDIB reg => do_ldib e reg
  | .LDIM reg => do_ldim e reg
  | .LDIR reg => do_ldir e reg
  | .LDIS reg => do_ldis e reg
  | .LDKP reg => do_ldkp e reg
  | .LDR r1 r2 => do_ldr e r1 r2
  | .LDST reg => do_ldst e reg
  | .OR r1 r2 => do_or e r1 r2
  | .RET => do_ret e
  | .RND reg val => do_rnd e reg val
  | .SE reg val => do_se e reg val
  | .SER r1 r2 => do_ser e r1 r2
  | .SHL reg => do_shl e reg
  | .SHR reg => do_shr e reg
  | .SKNP reg => do_sknp e reg
  | .SKP reg => do_skp e reg
  | .SNE reg val => do_sne e reg val
  | .SNER r1 r2 => do_sner e r1 r2
  | .SUB r1 r2 => do_sub e r1 r2
  | .SUBN r1 r2 => do_subn e r1 r2
  | .SYS addr => do_sys e addr
  | .XOR r1 r2 => do_xor e r1 r2

/-- The timer phase at the top of `Emulator::step`: each timer is
decremented when positive, otherwise left alone. -/
def tickTimers (e : Emulator) : Emulator :=
  let e2 := if e.dt > 0 then { e with dt := e.dt - 1 } else e
  if e2.st > 0 then { e2 with st := e2.st - 1 } else e2

/-- The fetch/decode/execute phase of `Emulator::step` (everything after the
timer updates). -/
def fetchExec (e : Emulator) : StepOutcome :=
  match next_instruction e with
  | none => none
  | some (none, e2) => some (.ok (some .Exit), e2)
  | some (some ins, e2) =>
    match interpret ins with
    | .error err => some (.error err, e2)
    | .ok op => exec e2 op

/-- `Emulator::step`: tick the timers, then fetch, decode and execute. -/
def step (e : Emulator) : StepOutcome :=
  fetchExec (tickTimers e)

/-- The emulator state after `n` calls to `step` (`none` once a step
panicked; a step that returns an `Error` still leaves a state). -/
def stepN (e : Emulator) : Nat → Option Emulator
  | 0 => some e
  | n + 1 => match stepN e n with
    | some e2 => (step e2).map (·.2)
    | none => none

/-- The result produced by step number `n` (0-based). -/
def stepResultN (e : Emulator) (n : Nat) : Option (Except Error (Option Step)) :=
  (stepN e n).bind (fun e2 => (step e2).map (·.1))

/-! ## Derived notions used to state the claims -/

/-- The family/sub-selector combinations that `interpret` rejects: an `0x8`
family word whose low nibble is not one of `0..7, 0xE`; an `0x9` family word
with nonzero low nibble; an `0xE` family word whose low byte is neither
`0x9E` nor `0xA1`; an `0xF` family word whose low byte is not one of the
nine recognized selectors. -/
def unknownSelector (w : Nat) : Prop :=
  (w &&& 0xF000 = 0x8000 ∧ ¬(w &&& 0x000F ≤ 0x7 ∨ w &&& 0x000F = 0xE)) ∨
  (w &&& 0xF000 = 0x9000 ∧ w &&& 0x000F ≠ 0x0) ∨
  (w &&& 0xF000 = 0xE000 ∧ ¬(w &&& 0x00FF = 0x9E ∨ w &&& 0x00FF = 0xA1)) ∨
  (w &&& 0xF000 = 0xF000 ∧
    ¬(w &&& 0x00FF = 0x07 ∨ w &&& 0x00FF = 0x0A ∨ w &&& 0x00FF = 0x15 ∨
      w &&& 0x00FF = 0x18 ∨ w &&& 0x00FF = 0x1E ∨ w &&& 0x00FF = 0x29 ∨
      w &&& 0x00FF = 0x33 ∨ w &&& 0x00FF = 0x55 ∨ w &&& 0x00FF = 0x65))

instance (w : Nat) : Decidable (unknownSelector w) := by
  unfold unknownSelector; infer_instance

/-- A ROM of 17 consecutive `CALL` instructions, each calling the next one:
the instruction at address `512 + 2k` is `CALL (514 + 2k)` (word
`0x2202 + 2k`). -/
def callChainRom : List Nat :=
  (List.range 17).foldr (fun k acc => 0x22 :: (2 * k + 2) :: acc) []

/-- A freshly zeroed emulator state (the state `Emulator::new` builds before
the font and ROM are loaded), used to instantiate claims on concrete
inputs. -/
def baseEmu : Emulator :=
  { vx := List.replicate 16 0, dt := 0, st := 0, sp := 0, i := 0, pc := 512,
    memory := List.replicate 4096 0, stack := List.replicate 16 0,
    screen := Screen.default, keyboard := List.replicate 16 false,
    rom_end := 512, rng := [] }

/-- One visited cell of a sprite blit: the flag-update and XOR-toggle that
`Screen::draw` performs at index `idx`. -/
def toggleStep (p : Nat × List Nat) (idx : Nat) : Nat × List Nat :=
  ((if p.2.getD idx 0 = 1 then 1 else p.1), p.2.set idx ((p.2.getD idx 0) ^^^ 1))

/-- The grid indices that one in-bounds sprite row (row `h`, byte `v`)
toggles: one index per set bit among the first `width` bits. -/
def rowVisits (x y width h v : Nat) : List Nat :=
  ((List.range width).filter (fun w => v &&& (0x80 >>> w) ≠ 0)).map
    (fun w => (x + w) + (y + h) * 64)

/-- A minimal state whose program region holds a single key-wait
instruction `F00A` at `pc = 512` (memory truncated after the program, which
only shortens evaluation, not semantics). -/
def keywaitEmu : Emulator :=
  { baseEmu with memory := List.replicate 512 0 ++ [0xF0, 0x0A], rom_end := 514 }

/-- The key-wait state with keys 3 and 5 latched. -/
def keywaitEmuKeys : Emulator :=
  { keywaitEmu with keyboard := ((List.replicate 16 false).set 5 true).set 3 true }

/-- All grid indices a sprite blit toggles, row by row starting at row
counter `h`; rows below the grid contribute nothing. -/
def visitsFrom (x y width : Nat) : List Nat → Nat → List Nat
  | [], _ => []
  | v :: rows, h =>
    (if y + h < 32 then rowVisits x y width h v else []) ++
      visitsFrom x y width rows (h + 1)

end Chip8

/-! ## Helper lemmas -/

namespace Chip8

theorem getD_set_self {α : Type} (l : List α) {i : Nat} (a d : α) (h : i < l.length) :
    (l.set i a).getD i d = a := by
  rw [List.getD_eq_getElem?_getD, List.getElem?_set_self h]
  rfl

theorem getD_set_ne {α : Type} (l : List α) {i j : Nat} (h : i ≠ j) (a d : α) :
    (l.set i a).getD j d = l.getD j d := by
  rw [List.getD_eq_getElem?_getD, List.getElem?_set_ne h, ← List.getD_eq_getElem?_getD]

theorem getD_replicate_lt {α : Type} {n i : Nat} (a d : α) (h : i < n) :
    (List.replicate n a).getD i d = a := by
  rw [List.getD_eq_getElem (List.replicate n a) d (by simpa using h)]
  simp

/-- `getD` on a `replicate` list with the replicated value as default. -/
theorem getD_replicate_self {α : Type} (a : α) :
    ∀ n k, (List.replicate n a).getD k a = a := by
  intro n
  induction n with
  | zero => intro k; rfl
  | succ n ih =>
    intro k
    cases k with
    | zero => rfl
    | succ k => exact ih k

/-- The top nibble of a word, extracted by mask, as an arithmetic
expression. -/
theorem and_hi_mask (w : Nat) : w &&& 61440 = (w / 4096 % 16) * 4096 := by
  have h : w &&& (15 <<< 12) = ((w >>> 12) &&& 15) <<< 12 := by
    apply Nat.eq_of_testBit_eq
    intro k
    simp only [Nat.testBit_and, Nat.testBit_shiftLeft, Nat.testBit_shiftRight]
    by_cases hk : 12 ≤ k
    · simp only [hk, Nat.add_sub_cancel' hk]
      cases w.testBit k <;> cases Nat.testBit 15 (k - 12) <;> simp
    · simp [hk, Nat.testBit_lt_two_pow]
  have h2 : w >>> 12 = w / 4096 := by
    rw [Nat.shiftRight_eq_div_pow]
  have h3 : (w >>> 12) &&& 15 = (w >>> 12) % 16 := by
    have h15 : (15 : Nat) = 2 ^ 4 - 1 := by norm_num
    rw [h15, Nat.and_pow_two_sub_one_eq_mod]
  have h4 : ((w / 4096) % 16) <<< 12 = (w / 4096 % 16) * 4096 := by
    rw [Nat.shiftLeft_eq]
  calc w &&& 61440 = w &&& (15 <<< 12) := by congr 1
    _ = ((w >>> 12) &&& 15) <<< 12 := h
    _ = (w / 4096 % 16) * 4096 := by rw [h3, h2, h4]

set_option maxHeartbeats 2000000 in
/-- `interpret` fails (with the raw word) exactly on the unknown
family/sub-selector combinations. -/
theorem interpret_error_iff (w : Nat) :
    interpret w = .error (.UnknownInstruction w) ↔ unknownSelector w := by
  obtain ⟨q, hq, hfam⟩ : ∃ q, q < 16 ∧ w &&& 61440 = q * 4096 :=
    ⟨_, Nat.mod_lt _ (by norm_num), and_hi_mask w⟩
  unfold unknownSelector
  unfold interpret
  rw [hfam]
  interval_cases q <;>
    norm_num <;>
    (try split_ifs) <;>
      first
        | exact fun hcon => Except.noConfusion hcon
        | exact not_false
        | exact iff_of_false (fun hcon => Except.noConfusion hcon) (by omega)
        | exact iff_of_true rfl (by omega)
        | (rw [false_iff]; omega)
        | exact ⟨fun himp hzero => Except.noConfusion (himp hzero),
                 fun hne hzero => absurd hzero hne⟩
        | omega

/-- Every word of the `0x5` family decodes to `SER`, whatever its low
nibble. -/
theorem interpret_5family (w : Nat) (h : w &&& 0xF000 = 0x5000) :
    interpret w = .ok (.SER (second_nibble w) (third_nibble w)) := by
  unfold interpret
  rw [h]
  norm_num

end Chip8

/-! ## Claim theorems -/

namespace Chip8

/-- C3 counterexample: the claim states that words `0x5xyN` with low nibble
`N ≠ 0` fail to decode, but `0x5121` (low nibble 1) decodes successfully to
`SER(V1, V2)` instead of failing. -/
theorem c3_decode_counterexample :
    interpret 0x5121 = .ok (.SER 0x1 0x2) ∧
    interpret 0x5121 ≠ .error (.UnknownInstruction 0x5121) := by
  decide

/-- C3 (amended): every recognized bit pattern of the opcode table decodes
to exactly the corresponding typed operation; decoding fails, carrying the
raw word, exactly for the unknown sub-selectors of the `0x8`, `0x9`, `0xE`
and `0xF` families; and — unlike the claim as stated — every word of the
`0x5` family decodes to `SER(Vx, Vy)` whatever its low nibble. -/
theorem c3_decode_amended :
    (interpret 0x0123 = .ok (.SYS 0x123) ∧
     interpret 0x00E0 = .ok .CLS ∧
     interpret 0x00EE = .ok .RET ∧
     interpret 0x1ABC = .ok (.JP 0xABC) ∧
     interpret 0x2DEF = .ok (.CALL 0xDEF) ∧
     interpret 0x3C42 = .ok (.SE 0xC 0x42) ∧
     interpret 0x4C42 = .ok (.SNE 0xC 0x42) ∧
     interpret 0x5CD0 = .ok (.SER 0xC 0xD) ∧
     interpret 0x6C42 = .ok (.LD 0xC 0x42) ∧
     interpret 0x7C42 = .ok (.ADD 0xC 0x42) ∧
     interpret 0x8120 = .ok (.LDR 0x1 0x2) ∧
     interpret 0x8121 = .ok (.OR 0x1 0x2) ∧
     interpret 0x8122 = .ok (.AND 0x1 0x2) ∧
     interpret 0x8123 = .ok (.XOR 0x1 0x2) ∧
     interpret 0x8AB4 = .ok (.ADDR 0xA 0xB) ∧
     interpret 0x8125 = .ok (.SUB 0x1 0x2) ∧
     interpret 0x8126 = .ok (.SHR 0x1) ∧
     interpret 0x8127 = .ok (.SUBN 0x1 0x2) ∧
     interpret 0x812E = .ok (.SHL 0x1) ∧
     interpret 0x9340 = .ok (.SNER 0x3 0x4) ∧
     interpret 0xA963 = .ok (.LDI 0x963) ∧
     interpret 0xB963 = .ok (.JPREL 0x963) ∧
     interpret 0xC577 = .ok (.RND 0x5 0x77) ∧
     interpret 0xD67B = .ok (.DRW 0x6 0x7 0xB) ∧
     interpret 0xE59E = .ok (.SKP 0x5) ∧
     interpret 0xE5A1 = .ok (.SKNP 0x5) ∧
     interpret 0xF507 = .ok (.CPDT 0x5) ∧
     interpret 0xF50A = .ok (.LDKP 0x5) ∧
     interpret 0xF515 = .ok (.LDDT 0x5) ∧
     interpret 0xF518 = .ok (.LDST 0x5) ∧
     interpret 0xF51E = .ok (.ADDI 0x5) ∧
     interpret 0xF529 = .ok (.LDIS 0x5) ∧
     interpret 0xFA33 = .ok (.LDIB 0xA) ∧
     interpret 0xF555 = .ok (.LDIR 0x5) ∧
     interpret 0xF565 = .ok (.LDIM 0x5)) ∧
    (∀ w, interpret w = .error (.UnknownInstruction w) ↔ unknownSelector w) ∧
    (∀ w, w &&& 0xF000 = 0x5000 →
      interpret w = .ok (.SER (second_nibble w) (third_nibble w))) := by
  refine ⟨⟨?_, ?_, ?_, ?_, ?_, ?_, ?_, ?_, ?_, ?_, ?_, ?_, ?_, ?_, ?_, ?_, ?_, ?_,
           ?_, ?_, ?_, ?_, ?_, ?_, ?_, ?_, ?_, ?_, ?_, ?_, ?_, ?_, ?_, ?_, ?_⟩,
         interpret_error_iff, interpret_5family⟩ <;> decide

/-- C3 witness: the amended theorem applied at the concrete words `0x5ABC`
(a `0x5` family word with nonzero low nibble) and `0x9005`. -/
theorem c3_decode_witness :
    interpret 0x5ABC = .ok (.SER (second_nibble 0x5ABC) (third_nibble 0x5ABC)) ∧
    interpret 0x9005 = .error (.UnknownInstruction 0x9005) :=
  ⟨c3_decode_amended.2.2 0x5ABC (by decide),
   (c3_decode_amended.2.1 0x9005).mpr (by decide)⟩

/-- C5 counterexample: the claim states that `Fx29` sets `I` to exactly
`4 × d` for every byte `d`; with `d = 64` the `u8` multiplication wraps and
`I` is set to 0, not 256. -/
theorem c5_ldis_counterexample :
    (do_ldis { baseEmu with vx := (List.replicate 16 0).set 0 64 } 0).map
      (fun p => p.2.i) = some 0 ∧ (0 : Nat) ≠ 4 * 64 := by
  decide

/-- C5 (amended): `Fx29` sets `I` to `(4 × d) mod 256` — the multiplication
is performed on `u8`, so the result equals `4 × d` only for `d < 64`. -/
theorem c5_ldis_amended (e : Emulator) (reg : Nat) :
    ∃ e2, do_ldis e reg = some (.ok (some .Nop), e2) ∧
      e2.i = (e.vx.getD reg 0 * 4) % 256 ∧
      (e.vx.getD reg 0 < 64 → e2.i = e.vx.getD reg 0 * 4) := by
  refine ⟨_, rfl, rfl, fun h => ?_⟩
  exact Nat.mod_eq_of_lt (by omega)

/-- C5 witness: the amended theorem at `d = 63` (in range, `I = 252`). -/
theorem c5_ldis_witness :
    ∃ e2, do_ldis { baseEmu with vx := (List.replicate 16 0).set 0 63 } 0 =
        some (.ok (some .Nop), e2) ∧
      e2.i = ({ baseEmu with
          vx := (List.replicate 16 0).set 0 63 } : Emulator).vx.getD 0 0 * 4 % 256 ∧
      (({ baseEmu with
          vx := (List.replicate 16 0).set 0 63 } : Emulator).vx.getD 0 0 < 64 →
        e2.i = ({ baseEmu with
          vx := (List.replicate 16 0).set 0 63 } : Emulator).vx.getD 0 0 * 4) :=
  c5_ldis_amended { baseEmu with vx := (List.replicate 16 0).set 0 63 } 0

/-- C10 (confirmed): `7xNN` sets `Vx` to `(Vx + NN) mod 256` without
touching the carry flag (`VF` is unchanged whenever `x ≠ 0xF`, even when
the addition wraps), and modifies no other register or processor state. -/
theorem c10_add_immediate (e : Emulator) (reg val : Nat)
    (hr : reg < 16) (hv : e.vx.length = 16) :
    ∃ e2, do_add e reg val = some (.ok (some .Nop), e2) ∧
      e2.vx.getD reg 0 = (e.vx.getD reg 0 + val) % 256 ∧
      (reg ≠ 0xF → e2.vx.getD 0xF 0 = e.vx.getD 0xF 0) ∧
      (∀ j, j ≠ reg → e2.vx.getD j 0 = e.vx.getD j 0) ∧
      e2.dt = e.dt ∧ e2.st = e.st ∧ e2.sp = e.sp ∧ e2.i = e.i ∧
      e2.pc = e.pc ∧ e2.memory = e.memory ∧ e2.stack = e.stack ∧
      e2.screen = e.screen ∧ e2.keyboard = e.keyboard ∧
      e2.rom_end = e.rom_end ∧ e2.rng = e.rng := by
  refine ⟨_, rfl, ?_, ?_, ?_, rfl, rfl, rfl, rfl, rfl, rfl, rfl, rfl, rfl, rfl, rfl⟩
  · exact getD_set_self _ _ _ (by omega)
  · intro hne
    exact getD_set_ne _ hne _ _
  · intro j hj
    exact getD_set_ne _ (Ne.symm hj) _ _

/-- C10 witness: the theorem at a concrete state with `V3 = 200`,
`VF = 7`, adding the immediate 100 (a wrapping addition). -/
theorem c10_add_immediate_witness :
    ∃ e2, do_add { baseEmu with
        vx := ((List.replicate 16 0).set 3 200).set 15 7 } 3 100 =
        some (.ok (some .Nop), e2) ∧
      e2.vx.getD 3 0 = (({ baseEmu with
        vx := ((List.replicate 16 0).set 3 200).set 15 7 } : Emulator).vx.getD 3 0 + 100) % 256 ∧
      (3 ≠ 0xF → e2.vx.getD 0xF 0 = ({ baseEmu with
        vx := ((List.replicate 16 0).set 3 200).set 15 7 } : Emulator).vx.getD 0xF 0) ∧
      (∀ j, j ≠ 3 → e2.vx.getD j 0 = ({ baseEmu with
        vx := ((List.replicate 16 0).set 3 200).set 15 7 } : Emulator).vx.getD j 0) ∧
      e2.dt = baseEmu.dt ∧ e2.st = baseEmu.st ∧ e2.sp = baseEmu.sp ∧
      e2.i = baseEmu.i ∧ e2.pc = baseEmu.pc ∧ e2.memory = baseEmu.memory ∧
      e2.stack = baseEmu.stack ∧ e2.screen = baseEmu.screen ∧
      e2.keyboard = baseEmu.keyboard ∧ e2.rom_end = baseEmu.rom_end ∧
      e2.rng = baseEmu.rng :=
  c10_add_immediate { baseEmu with
    vx := ((List.replicate 16 0).set 3 200).set 15 7 } 3 100 (by decide) (by decide)


/-- C1 counterexample: with `V0 = 1`, `V1 = 0`, executing reverse-subtract
`8017` (`x = 0`, `y = 1`, so `Vy - Vx` underflows) must, per the claim, set
`V0` to `(0 - 1) mod 256 = 255` and `VF` to `1`; the code instead leaves
`V0 = 0` (saturating subtraction) and `VF = 0` (its flag convention is
`1` iff `Vy > Vx`, the opposite of the claim's). -/
theorem c1_subn_counterexample :
    (do_subn { baseEmu with vx := (List.replicate 16 0).set 0 1 } 0 1).map
      (fun p => (p.2.vx.getD 0 0, p.2.vx.getD 0xF 0)) = some (0, 0) ∧
    ((0 : Nat), (0 : Nat)) ≠ (255, 1) := by
  decide

/-- C1 (amended): for registers `x, y` other than `VF`, subtract `8xy5`
does behave as claimed — `Vx` becomes `(Vx - Vy) mod 256` and `VF = 1`
exactly on borrow (`Vx < Vy`) — but reverse-subtract `8xy7` does not: it
sets `VF = 1` exactly when `Vy > Vx` (no borrow, under strict inequality)
and sets `Vx` to the saturating difference `Vy - Vx` (0 on underflow, not
a wraparound); the two flag conventions are opposite, not consistent. -/
theorem c1_sub_subn_amended (e : Emulator) (r1 r2 : Nat)
    (h1 : r1 < 16) (hf1 : r1 ≠ 0xF) (hf2 : r2 ≠ 0xF) (hv : e.vx.length = 16) :
    (∃ e2, do_sub e r1 r2 = some (.ok (some .Nop), e2) ∧
      e2.vx.getD r1 0 = (e.vx.getD r1 0 + 256 - e.vx.getD r2 0) % 256 ∧
      e2.vx.getD 0xF 0 = (if e.vx.getD r1 0 < e.vx.getD r2 0 then 1 else 0)) ∧
    (∃ e3, do_subn e r1 r2 = some (.ok (some .Nop), e3) ∧
      e3.vx.getD r1 0 = e.vx.getD r2 0 - e.vx.getD r1 0 ∧
      e3.vx.getD 0xF 0 = (if e.vx.getD r2 0 > e.vx.getD r1 0 then 1 else 0)) := by
  constructor
  · refine ⟨_, rfl, ?_, ?_⟩
    · rw [getD_set_ne _ (fun hcon => hf1 hcon.symm) _ _]
      exact getD_set_self _ _ _ (by omega)
    · exact getD_set_self _ _ _ (by simp [hv])
  · refine ⟨_, rfl, ?_, ?_⟩
    · rw [getD_set_ne _ (Ne.symm hf2) _ _, getD_set_ne _ (Ne.symm hf1) _ _]
      exact getD_set_self _ _ _ (by simpa [hv] using h1)
    · rw [getD_set_ne _ hf1 _ _]
      exact getD_set_self _ _ _ (by omega)

/-- C1 witness: the amended theorem at a concrete state with `V2 = 5`,
`V3 = 9`. -/
theorem c1_sub_subn_witness :
    (∃ e2, do_sub { baseEmu with
        vx := ((List.replicate 16 0).set 2 5).set 3 9 } 2 3 =
        some (.ok (some .Nop), e2) ∧
      e2.vx.getD 2 0 = (({ baseEmu with
        vx := ((List.replicate 16 0).set 2 5).set 3 9 } : Emulator).vx.getD 2 0 + 256 -
          ({ baseEmu with
        vx := ((List.replicate 16 0).set 2 5).set 3 9 } : Emulator).vx.getD 3 0) % 256 ∧
      e2.vx.getD 0xF 0 = (if ({ baseEmu with
        vx := ((List.replicate 16 0).set 2 5).set 3 9 } : Emulator).vx.getD 2 0 <
          ({ baseEmu with
        vx := ((List.replicate 16 0).set 2 5).set 3 9 } : Emulator).vx.getD 3 0
        then 1 else 0)) ∧
    (∃ e3, do_subn { baseEmu with
        vx := ((List.replicate 16 0).set 2 5).set 3 9 } 2 3 =
        some (.ok (some .Nop), e3) ∧
      e3.vx.getD 2 0 = ({ baseEmu with
        vx := ((List.replicate 16 0).set 2 5).set 3 9 } : Emulator).vx.getD 3 0 -
          ({ baseEmu with
        vx := ((List.replicate 16 0).set 2 5).set 3 9 } : Emulator).vx.getD 2 0 ∧
      e3.vx.getD 0xF 0 = (if ({ baseEmu with
        vx := ((List.replicate 16 0).set 2 5).set 3 9 } : Emulator).vx.getD 3 0 >
          ({ baseEmu with
        vx := ((List.replicate 16 0).set 2 5).set 3 9 } : Emulator).vx.getD 2 0
        then 1 else 0)) :=
  c1_sub_subn_amended { baseEmu with
    vx := ((List.replicate 16 0).set 2 5).set 3 9 } 2 3
    (by decide) (by decide) (by decide) (by decide)

/-- The copying loop of `load_rom` succeeds whenever at most 3583 bytes
remain to be written from index `i`. -/
theorem load_rom_loop_ok (rom : List Nat) :
    ∀ i mem, i + rom.length ≤ 3583 →
      ∃ mem2, load_rom_loop rom i mem = .ok (i + rom.length, mem2) := by
  induction rom with
  | nil => exact fun i mem _ => ⟨mem, rfl⟩
  | cons b rest ih =>
    intro i mem h
    simp only [List.length_cons] at h
    simp only [load_rom_loop]
    rw [if_neg (by omega)]
    obtain ⟨m2, hm⟩ := ih (i + 1) (mem.set (i + 512) b) (by omega)
    refine ⟨m2, ?_⟩
    rw [hm]
    simp only [List.length_cons]
    congr 2
    omega

/-- The copying loop of `load_rom` fails with `InvalidROM` whenever the
bytes remaining from index `i` would run to index 3584 or beyond. -/
theorem load_rom_loop_err (rom : List Nat) :
    ∀ i mem, i ≤ 3583 → 3584 ≤ i + rom.length →
      load_rom_loop rom i mem = .error .InvalidROM := by
  induction rom with
  | nil =>
    intro i mem hle hge
    simp only [List.length_nil] at hge
    omega
  | cons b rest ih =>
    intro i mem hle hge
    simp only [List.length_cons] at hge
    simp only [load_rom_loop]
    by_cases hc : i + 1 + 512 ≥ 4096
    · rw [if_pos hc]
    · rw [if_neg hc]
      exact ih (i + 1) (mem.set (i + 512) b) (by omega) (by omega)

/-- `load_rom` succeeds on a byte list of length at most 3583, setting
`rom_end` past the last loaded byte and leaving `pc`, `sp` and the timers
untouched. -/
theorem load_rom_ok (e : Emulator) (rom : List Nat) (h : rom.length ≤ 3583) :
    ∃ e2, load_rom e rom = .ok e2 ∧ e2.rom_end = rom.length + 512 ∧
      e2.pc = e.pc ∧ e2.sp = e.sp ∧ e2.dt = e.dt ∧ e2.st = e.st := by
  obtain ⟨mem2, hm⟩ := load_rom_loop_ok rom 0 (unload_rom e).memory (by omega)
  refine ⟨{ unload_rom e with memory := mem2, rom_end := 0 + rom.length + 512 },
          ?_, ?_, rfl, rfl, rfl, rfl⟩
  · simp only [load_rom]
    rw [hm]
  · show 0 + rom.length + 512 = rom.length + 512
    omega


/-- `load_rom` fails with `InvalidROM` on a byte list of length 3584 or
more. -/
theorem load_rom_err (e : Emulator) (rom : List Nat) (h : 3584 ≤ rom.length) :
    load_rom e rom = .error .InvalidROM := by
  simp only [load_rom]
  rw [load_rom_loop_err rom 0 (unload_rom e).memory (by omega) (by omega)]

/-- C2 counterexample: the claim allows byte streams up to length 3584, but
a stream of exactly 3584 bytes already fails construction. -/
theorem c2_load_counterexample :
    Emulator.new (List.replicate 3584 0) = .error .InvalidROM ∧
    (List.replicate 3584 (0 : Nat)).length ≤ 3584 := by
  refine ⟨load_rom_err _ _ ?_, ?_⟩ <;> simp only [List.length_replicate] <;> omega

/-- C2 (amended): construction from a byte stream of length at most 3583
(not 3584) succeeds, placing the program at 512 with `rom_end` just past
its last byte; construction from any stream of length 3584 or more fails
with the invalid-program error before any instruction runs, returning no
processor. -/
theorem c2_load_amended (rom : List Nat) :
    (rom.length ≤ 3583 →
      ∃ e, Emulator.new rom = .ok e ∧ e.rom_end = rom.length + 512 ∧
        e.pc = 512 ∧ e.sp = 0 ∧ e.dt = 0 ∧ e.st = 0) ∧
    (3584 ≤ rom.length → Emulator.new rom = .error .InvalidROM) := by
  constructor
  · intro hlen
    obtain ⟨e2, h1, h2, h3, h4, h5, h6⟩ := load_rom_ok (initEmu []) rom hlen
    exact ⟨e2, h1, h2, h3, h4, h5, h6⟩
  · intro hlen
    exact load_rom_err (initEmu []) rom hlen

/-- C2 witness: the amended theorem at the two boundary lengths 3583
(succeeds) and 3584 (fails). -/
theorem c2_load_witness :
    (∃ e, Emulator.new (List.replicate 3583 7) = .ok e ∧
      e.rom_end = (List.replicate 3583 (7 : Nat)).length + 512 ∧
      e.pc = 512 ∧ e.sp = 0 ∧ e.dt = 0 ∧ e.st = 0) ∧
    Emulator.new (List.replicate 3584 7) = .error .InvalidROM :=
  ⟨(c2_load_amended (List.replicate 3583 7)).1
     (by rw [List.length_replicate]),
   (c2_load_amended (List.replicate 3584 7)).2
     (by rw [List.length_replicate])⟩

/-- `tickTimers` changes only the two timer fields. -/
theorem tickTimers_fields (e : Emulator) :
    (tickTimers e).pc = e.pc ∧ (tickTimers e).rom_end = e.rom_end ∧
    (tickTimers e).memory = e.memory ∧ (tickTimers e).vx = e.vx ∧
    (tickTimers e).keyboard = e.keyboard ∧ (tickTimers e).sp = e.sp ∧
    (tickTimers e).stack = e.stack ∧ (tickTimers e).i = e.i ∧
    (tickTimers e).screen = e.screen ∧ (tickTimers e).rng = e.rng := by
  unfold tickTimers
  dsimp only
  split_ifs <;> exact ⟨rfl, rfl, rfl, rfl, rfl, rfl, rfl, rfl, rfl, rfl⟩

/-- Updating a field of an emulator record with its own value is the
identity. -/
theorem emu_update_pc_self (x : Emulator) (p : Nat) (h : x.pc = p) :
    { x with pc := p } = x := by
  cases x
  cases h
  rfl

set_option maxRecDepth 8000 in
/-- C4 (code bug): the spec requires key index values outside `[0,16)` to be
guarded, but `is_pressed` indexes the 16-entry keypad array directly, so
`Ex9E`/`ExA1` panic (modelled as `none`) whenever `Vx ≥ 16`; with `Vx < 16`
both skips complete.  The last two conjuncts evaluate a whole `step` on the
constructed emulator at the failing input `Vx = 16` (word `E09E`). -/
theorem c4_skip_keypad_bug :
    (∀ e r, e.keyboard.length = 16 → 16 ≤ e.vx.getD r 0 →
      do_skp e r = none ∧ do_sknp e r = none) ∧
    (∀ e r, e.vx.getD r 0 < e.keyboard.length →
      (do_skp e r).isSome = true ∧ (do_sknp e r).isSome = true) ∧
    (Emulator.new [0xE0, 0x9E]).map
      (fun e => step { e with vx := e.vx.set 0 16 }) = .ok none ∧
    (Emulator.new [0xE0, 0x9E]).map
      (fun e => (step { e with vx := e.vx.set 0 15 }).isSome) = .ok true := by
  refine ⟨?_, ?_, by decide, by decide⟩
  · intro e r hk hv
    constructor <;>
      · simp only [do_skp, do_sknp, is_pressed]
        rw [dif_neg (by omega)]
  · intro e r hv
    constructor <;>
      · simp only [do_skp, do_sknp, is_pressed]
        rw [dif_pos hv]
        rfl

set_option maxRecDepth 8000 in
/-- C4 witness: the panic branch and the guarded branch of the theorem at
concrete states with `V0 = 16` and `V0 = 15`. -/
theorem c4_skip_keypad_bug_witness :
    (do_skp { baseEmu with vx := (List.replicate 16 0).set 0 16 } 0 = none ∧
     do_sknp { baseEmu with vx := (List.replicate 16 0).set 0 16 } 0 = none) ∧
    ((do_skp { baseEmu with vx := (List.replicate 16 0).set 0 15 } 0).isSome = true ∧
     (do_sknp { baseEmu with vx := (List.replicate 16 0).set 0 15 } 0).isSome = true) :=
  ⟨c4_skip_keypad_bug.1 { baseEmu with vx := (List.replicate 16 0).set 0 16 } 0
     (by decide) (by decide),
   c4_skip_keypad_bug.2.1 { baseEmu with vx := (List.replicate 16 0).set 0 15 } 0
     (by decide)⟩

set_option maxRecDepth 8000 in
/-- C6 (confirmed): on every `step` call the timer phase runs first — each
timer is decremented by exactly 1 when positive and left at 0 otherwise,
never by more than 1 and never below 0 — regardless of whether the fetch
succeeds (a failed fetch exits with exactly the ticked state); and from
`DT = ST = 5`, five steps of a harmless loop leave both timers at 0 and a
sixth leaves them at 0. -/
theorem c6_timers :
    (∀ e, (tickTimers e).dt = (if 0 < e.dt then e.dt - 1 else 0) ∧
          (tickTimers e).st = (if 0 < e.st then e.st - 1 else 0)) ∧
    (∀ e, e.dt - (tickTimers e).dt ≤ 1 ∧ e.st - (tickTimers e).st ≤ 1 ∧
          (tickTimers e).dt ≤ e.dt ∧ (tickTimers e).st ≤ e.st) ∧
    (∀ e, step e = fetchExec (tickTimers e)) ∧
    (∀ e, e.pc < 512 ∨ e.rom_end ≤ e.pc →
      step e = some (.ok (some .Exit), tickTimers e)) ∧
    (Emulator.new [0x12, 0x00]).map (fun e =>
      ((stepN { e with dt := 5, st := 5 } 5).map (fun x => (x.dt, x.st)),
       (stepN { e with dt := 5, st := 5 } 6).map (fun x => (x.dt, x.st)))) =
      .ok (some (0, 0), some (0, 0)) := by
  refine ⟨?_, ?_, fun e => rfl, ?_, by decide⟩
  · intro e
    by_cases hdt : 0 < e.dt <;> by_cases hst : 0 < e.st <;>
      (try simp [tickTimers, hdt, hst]) <;> omega
  · intro e
    by_cases hdt : 0 < e.dt <;> by_cases hst : 0 < e.st <;>
      (try simp [tickTimers, hdt, hst]) <;> omega
  · intro e h
    show fetchExec (tickTimers e) = _
    obtain ⟨hpc, hre, -⟩ := tickTimers_fields e
    simp only [fetchExec, next_instruction]
    rw [if_pos (by rw [hpc, hre]; exact h)]

set_option maxRecDepth 8000 in
/-- C6 witness: the theorem's fetch-failure conjunct at a concrete halted
state (`pc = 0`, below the program region), with `DT = 3`, `ST = 0`. -/
theorem c6_timers_witness :
    step { baseEmu with pc := 0, dt := 3 } =
      some (.ok (some .Exit), tickTimers { baseEmu with pc := 0, dt := 3 }) :=
  c6_timers.2.2.2.1 { baseEmu with pc := 0, dt := 3 } (by decide)

/-- `find?` over `range' s n` returns the least element satisfying the
predicate when one exists in range. -/
theorem find?_range'_eq_some (p : Nat → Bool) :
    ∀ n s k, s ≤ k → k < s + n → p k = true →
      (∀ j, s ≤ j → j < k → p j = false) →
      (List.range' s n).find? p = some k := by
  intro n
  induction n with
  | zero => intro s k h1 h2 _ _; omega
  | succ n ih =>
    intro s k h1 h2 h3 h4
    rw [List.range'_succ]
    by_cases hs : s = k
    · subst hs
      exact List.find?_cons_of_pos _ h3
    · rw [List.find?_cons_of_neg _ (by rw [h4 s le_rfl (by omega)]; simp)]
      exact ih (s + 1) k (by omega) (by omega) h3 (fun j hj1 hj2 => h4 j (by omega) hj2)

/-- `pressed_key` returns `none` when no key is latched. -/
theorem pressed_key_eq_none (e : Emulator)
    (h : ∀ k, e.keyboard.getD k false = false) :
    pressed_key e = none := by
  unfold pressed_key
  rw [List.find?_eq_none]
  intro x hx
  have hx2 := h x
  simp only [List.getD_eq_getElem?_getD] at hx2
  simp [hx2]

/-- `pressed_key` returns the lowest-indexed pressed key. -/
theorem pressed_key_eq_some (e : Emulator) (k0 : Nat)
    (hlen : k0 < e.keyboard.length)
    (hp : e.keyboard.getD k0 false = true)
    (hmin : ∀ j, j < k0 → e.keyboard.getD j false = false) :
    pressed_key e = some k0 := by
  unfold pressed_key
  rw [List.range_eq_range']
  exact find?_range'_eq_some _ _ 0 k0 (Nat.zero_le _) (by omega) hp
    (fun j _ hj => hmin j hj)

/-- C7 (confirmed): when the fetched instruction decodes to key-wait
(`Fx0A`): with no key pressed, the step returns the `WaitForKey` signal and
the state is exactly the ticked original — the program counter is rewound by
2, hence net unchanged, so the same instruction re-executes next call; with
at least one key pressed, the lowest-indexed pressed key's code is loaded
into the destination register and the program counter stays advanced by 2
(normal progress, `Nop` signal). -/
theorem c7_keywait (e : Emulator) (r : Nat)
    (hpc1 : 512 ≤ e.pc) (hpc2 : e.pc < e.rom_end)
    (hmem : e.pc + 1 < e.memory.length)
    (hdec : interpret ((e.memory.getD e.pc 0 <<< 8) ||| e.memory.getD (e.pc + 1) 0) =
      .ok (.LDKP r)) :
    ((∀ k, e.keyboard.getD k false = false) →
      step e = some (.ok (some .WaitForKey), tickTimers e)) ∧
    (∀ k0, k0 < e.keyboard.length → e.keyboard.getD k0 false = true →
      (∀ j, j < k0 → e.keyboard.getD j false = false) →
      step e = some (.ok (some .Nop),
        { tickTimers e with pc := e.pc + 2, vx := e.vx.set r k0 })) := by
  obtain ⟨fpc, fre, fmem, fvx, fkb, -⟩ := tickTimers_fields e
  have hget1 : e.memory.get? e.pc = some (e.memory.getD e.pc 0) := by
    rw [List.get?_eq_getElem?, List.getD_eq_getElem _ _ (by omega)]
    exact List.getElem?_eq_getElem (by omega)
  have hget2 : e.memory.get? (e.pc + 1) = some (e.memory.getD (e.pc + 1) 0) := by
    rw [List.get?_eq_getElem?, List.getD_eq_getElem _ _ (by omega)]
    exact List.getElem?_eq_getElem (by omega)
  have hstep : step e = do_ldkp { tickTimers e with pc := e.pc + 2 } r := by
    show fetchExec (tickTimers e) = _
    simp only [fetchExec, next_instruction]
    rw [fpc, fre, fmem, hget1, hget2]
    rw [if_neg (by omega)]
    dsimp only
    rw [hdec]
    rfl
  constructor
  · intro hnone
    rw [hstep]
    unfold do_ldkp
    rw [pressed_key_eq_none _ (fun k => by
      show (tickTimers e).keyboard.getD k false = false
      rw [fkb]; exact hnone k)]
    have h2 : e.pc + 2 - 2 = e.pc := by omega
    show some (_, { tickTimers e with pc := e.pc + 2 - 2 }) = _
    rw [h2, emu_update_pc_self (tickTimers e) e.pc fpc]
  · intro k0 hk0 hp hmin
    rw [hstep]
    unfold do_ldkp
    rw [pressed_key_eq_some _ k0
      (by show k0 < (tickTimers e).keyboard.length; rw [fkb]; exact hk0)
      (by show (tickTimers e).keyboard.getD k0 false = true; rw [fkb]; exact hp)
      (fun j hj => by
        show (tickTimers e).keyboard.getD j false = false
        rw [fkb]; exact hmin j hj)]
    show some (_, { tickTimers e with pc := e.pc + 2, vx := (tickTimers e).vx.set r k0 }) = _
    rw [fvx]

set_option maxRecDepth 8000 in
/-- C7 witness: the theorem's two branches on the key-wait state — once
with no key pressed (`WaitForKey`, state exactly the ticked original), once
with keys 3 and 5 pressed (`V0` receives 3, PC advances by 2). -/
theorem c7_keywait_witness :
    step keywaitEmu = some (.ok (some .WaitForKey), tickTimers keywaitEmu) ∧
    step keywaitEmuKeys = some (.ok (some .Nop),
      { tickTimers keywaitEmuKeys with
        pc := keywaitEmuKeys.pc + 2, vx := keywaitEmuKeys.vx.set 0 3 }) :=
  ⟨(c7_keywait keywaitEmu 0 (by decide) (by decide) (by decide) (by decide)).1
     (fun k => getD_replicate_self false 16 k),
   (c7_keywait keywaitEmuKeys 0
      (by decide) (by decide) (by decide) (by decide)).2 3 (by decide) (by decide)
      (by intro j hj; interval_cases j <;> decide)⟩

set_option maxRecDepth 8000 in
/-- C8 (confirmed): on a chain of 17 nested `CALL` instructions, the first
16 calls succeed, after call `k+1` the stack pointer is `k+1` and stack slot
`k` holds the post-fetch program counter `514 + 2k`; the 17th call fails
with `StackOverflow`; and a `RET` executed on an empty stack fails with
`StackUnderflow`. -/
theorem c8_call_stack :
    (∀ k, k < 16 →
      (Emulator.new callChainRom).map (fun e => stepResultN e k) =
        .ok (some (.ok (some .Nop))) ∧
      (Emulator.new callChainRom).map (fun e => (stepN e (k + 1)).map Emulator.sp) =
        .ok (some (k + 1)) ∧
      (Emulator.new callChainRom).map
          (fun e => (stepN e (k + 1)).map (fun x => x.stack.getD k 0)) =
        .ok (some (514 + 2 * k))) ∧
    (Emulator.new callChainRom).map (fun e => stepResultN e 16) =
      .ok (some (.error .StackOverflow)) ∧
    (Emulator.new [0x00, 0xEE]).map (fun e => stepResultN e 0) =
      .ok (some (.error .StackUnderflow)) := by
  refine ⟨by decide, by decide, by decide⟩

set_option maxRecDepth 8000 in
/-- C8 witness: the theorem's bounded conjunct at `k = 7` — the eighth call
succeeds, leaving `sp = 8` and `528` in stack slot 7. -/
theorem c8_call_stack_witness :
    (Emulator.new callChainRom).map (fun e => stepResultN e 7) =
      .ok (some (.ok (some .Nop))) ∧
    (Emulator.new callChainRom).map (fun e => (stepN e 8).map Emulator.sp) =
      .ok (some 8) ∧
    (Emulator.new callChainRom).map
        (fun e => (stepN e 8).map (fun x => x.stack.getD 7 0)) =
      .ok (some 528) :=
  c8_call_stack.1 7 (by decide)

/-- Folding toggles preserves the pixel-array length. -/
theorem foldl_toggleStep_length (L : List Nat) :
    ∀ p : Nat × List Nat, (List.foldl toggleStep p L).2.length = p.2.length := by
  induction L with
  | nil => intro p; rfl
  | cons a L ih =>
    intro p
    rw [List.foldl_cons]
    rw [ih (toggleStep p a)]
    exact List.length_set _ _ _

/-- An in-grid sprite row (`y + h < 32`) never aborts: `blitRow` is the fold
of `toggleStep` over the row's visit indices. -/
theorem blitRow_foldl (x y h v : Nat) (hh : h < 256) (hyh : y + h < 32) :
    ∀ ws vf px, (∀ w ∈ ws, x + w < 64) → px.length = 2048 →
      blitRow x y h v ws vf px =
        ((List.foldl toggleStep (vf, px)
            ((ws.filter (fun w => v &&& (0x80 >>> w) ≠ 0)).map
              (fun w => (x + w) + (y + h) * 64))).1,
         (List.foldl toggleStep (vf, px)
            ((ws.filter (fun w => v &&& (0x80 >>> w) ≠ 0)).map
              (fun w => (x + w) + (y + h) * 64))).2,
         false) := by
  intro ws
  induction ws with
  | nil => intro vf px _ _; rfl
  | cons w ws ih =>
    intro vf px hxw hpx
    have hw : x + w < 64 := hxw w (List.mem_cons_self w ws)
    have hidx : calc_index x y w (h % 256) = (x + w) + (y + h) * 64 := by
      unfold calc_index
      rw [Nat.mod_eq_of_lt hh, Nat.mod_eq_of_lt (by omega : x + w < 256),
          Nat.mod_eq_of_lt (by omega : y + h < 256)]
    by_cases hbit : v &&& (0x80 >>> w) = 0
    · rw [show blitRow x y h v (w :: ws) vf px = blitRow x y h v ws vf px from by
        simp only [blitRow]
        rw [if_neg (not_not_intro hbit)]]
      rw [List.filter_cons_of_neg (by simp [hbit])]
      exact ih vf px (fun u hu => hxw u (List.mem_cons_of_mem w hu)) hpx
    · have hred : blitRow x y h v (w :: ws) vf px =
          blitRow x y h v ws (if px.getD ((x + w) + (y + h) * 64) 0 = 1 then 1 else vf)
            (px.set ((x + w) + (y + h) * 64) ((px.getD ((x + w) + (y + h) * 64) 0) ^^^ 1)) := by
        simp only [blitRow]
        rw [if_pos hbit, hidx, if_neg (by omega : ¬px.length ≤ (x + w) + (y + h) * 64)]
      rw [hred]
      rw [List.filter_cons_of_pos (by simp [hbit])]
      rw [List.map_cons, List.foldl_cons]
      exact ih _ _ (fun u hu => hxw u (List.mem_cons_of_mem w hu))
        (by rw [List.length_set]; exact hpx)

/-- A below-grid sprite row (`32 ≤ y + h < 256`) changes nothing: it either
aborts at its first set bit or falls through, leaving flag and pixels
untouched. -/
theorem blitRow_skip (x y h v : Nat) (hh : h < 256) (hyh : 32 ≤ y + h)
    (hyh2 : y + h < 256) :
    ∀ ws vf px, px.length = 2048 →
      ∃ b, blitRow x y h v ws vf px = (vf, px, b) := by
  intro ws
  induction ws with
  | nil => intro vf px _; exact ⟨false, rfl⟩
  | cons w ws ih =>
    intro vf px hpx
    by_cases hbit : v &&& (0x80 >>> w) = 0
    · obtain ⟨b, hb⟩ := ih vf px hpx
      refine ⟨b, ?_⟩
      rw [show blitRow x y h v (w :: ws) vf px = blitRow x y h v ws vf px from by
        simp only [blitRow]
        rw [if_neg (not_not_intro hbit)]]
      exact hb
    · refine ⟨true, ?_⟩
      have hidx : (y + h) * 64 ≤ calc_index x y w (h % 256) := by
        unfold calc_index
        rw [Nat.mod_eq_of_lt hh, Nat.mod_eq_of_lt hyh2]
        omega
      simp only [blitRow]
      rw [if_pos hbit, if_pos (by omega : px.length ≤ calc_index x y w (h % 256))]

/-- Below the grid, the visit list is empty. -/
theorem visitsFrom_nil_of_out (x y width : Nat) :
    ∀ rows h, 32 ≤ y + h → visitsFrom x y width rows h = [] := by
  intro rows
  induction rows with
  | nil => intro h _; rfl
  | cons v rows ih =>
    intro h hy
    simp only [visitsFrom]
    rw [if_neg (by omega), ih (h + 1) (by omega)]
    rfl

/-- `blitRows` is the fold of `toggleStep` over the whole visit list. -/
theorem blitRows_foldl (x y width : Nat) (hx : ∀ w, w < width → x + w < 64)
    (hy : y < 32) :
    ∀ rows h vf px, px.length = 2048 → h + rows.length ≤ 15 →
      blitRows x y width rows h vf px =
        List.foldl toggleStep (vf, px) (visitsFrom x y width rows h) := by
  intro rows
  induction rows with
  | nil => intro h vf px _ _; rfl
  | cons v rows ih =>
    intro h vf px hpx hlen
    simp only [List.length_cons] at hlen
    by_cases hyh : y + h < 32
    · have hrow := blitRow_foldl x y h v (by omega) hyh (List.range width) vf px
        (fun w hw => hx w (List.mem_range.mp hw)) hpx
      simp only [blitRows]
      rw [hrow]
      simp only [visitsFrom]
      rw [if_pos hyh, List.foldl_append]
      have hrv : rowVisits x y width h v =
          ((List.range width).filter (fun w => v &&& (0x80 >>> w) ≠ 0)).map
            (fun w => (x + w) + (y + h) * 64) := rfl
      rw [hrv]
      exact ih (h + 1) _ _
        (by rw [foldl_toggleStep_length]; exact hpx) (by omega)
    · obtain ⟨b, hb⟩ := blitRow_skip x y h v (by omega) (by omega) (by omega)
        (List.range width) vf px hpx
      simp only [blitRows]
      rw [hb]
      simp only [visitsFrom]
      rw [if_neg hyh, visitsFrom_nil_of_out x y width rows (h + 1) (by omega)]
      cases b
      · show blitRows x y width rows (h + 1) vf px =
          List.foldl toggleStep (vf, px) ([] ++ [])
        rw [ih (h + 1) vf px hpx (by omega),
            visitsFrom_nil_of_out x y width rows (h + 1) (by omega),
            List.nil_append]
      · rfl

/-- Folding toggles over distinct fresh (all-zero) cells: the collision flag
is untouched and exactly the visited cells become 1. -/
theorem foldl_toggle_fresh :
    ∀ (L : List Nat) (vf : Nat) (px : List Nat), L.Nodup →
      (∀ j ∈ L, px.getD j 0 = 0) → (∀ j ∈ L, j < px.length) →
      (List.foldl toggleStep (vf, px) L).1 = vf ∧
      (∀ j, (List.foldl toggleStep (vf, px) L).2.getD j 0 =
        (if j ∈ L then 1 else px.getD j 0)) := by
  intro L
  induction L with
  | nil =>
    intro vf px _ _ _
    exact ⟨rfl, fun j => by simp⟩
  | cons a L ih =>
    intro vf px hnd h0 hlt
    have ha0 : px.getD a 0 = 0 := h0 a (List.mem_cons_self a L)
    have halt : a < px.length := hlt a (List.mem_cons_self a L)
    have hstep : toggleStep (vf, px) a = (vf, px.set a 1) := by
      unfold toggleStep
      rw [show (vf, px).2 = px from rfl, ha0]
      norm_num
    have hnotmem : a ∉ L := (List.nodup_cons.mp hnd).1
    have hx0 : ∀ j ∈ L, (px.set a 1).getD j 0 = 0 := fun j hj => by
      rw [getD_set_ne _ (fun hc => hnotmem (by rw [hc]; exact hj)) _ _]
      exact h0 j (List.mem_cons_of_mem a hj)
    have hxlt : ∀ j ∈ L, j < (px.set a 1).length := fun j hj => by
      rw [List.length_set]
      exact hlt j (List.mem_cons_of_mem a hj)
    obtain ⟨ihvf, ihpx⟩ := ih vf (px.set a 1) (List.nodup_cons.mp hnd).2 hx0 hxlt
    rw [List.foldl_cons, hstep]
    refine ⟨ihvf, fun j => ?_⟩
    rw [ihpx j]
    by_cases hja : j = a
    · subst hja
      rw [if_neg hnotmem, if_pos (List.mem_cons_self j L)]
      exact getD_set_self _ _ _ halt
    · by_cases hjL : j ∈ L
      · rw [if_pos hjL, if_pos (List.mem_cons_of_mem a hjL)]
      · rw [if_neg hjL, if_neg (by simp [hja, hjL]),
            getD_set_ne _ (fun hc => hja hc.symm) _ _]

/-- Folding toggles over distinct lit (all-one) cells: the collision flag is
raised as soon as the list is nonempty, and exactly the visited cells return
to 0. -/
theorem foldl_toggle_lit :
    ∀ (L : List Nat) (vf : Nat) (px : List Nat), L.Nodup →
      (∀ j ∈ L, px.getD j 0 = 1) → (∀ j ∈ L, j < px.length) →
      (L ≠ [] → (List.foldl toggleStep (vf, px) L).1 = 1) ∧
      (∀ j, (List.foldl toggleStep (vf, px) L).2.getD j 0 =
        (if j ∈ L then 0 else px.getD j 0)) := by
  intro L
  induction L with
  | nil =>
    intro vf px _ _ _
    exact ⟨fun hc => absurd rfl hc, fun j => by simp⟩
  | cons a L ih =>
    intro vf px hnd h1 hlt
    have ha1 : px.getD a 0 = 1 := h1 a (List.mem_cons_self a L)
    have halt : a < px.length := hlt a (List.mem_cons_self a L)
    have hstep : toggleStep (vf, px) a = (1, px.set a 0) := by
      unfold toggleStep
      rw [show (vf, px).2 = px from rfl, ha1]
      norm_num
    have hnotmem : a ∉ L := (List.nodup_cons.mp hnd).1
    have hx1 : ∀ j ∈ L, (px.set a 0).getD j 0 = 1 := fun j hj => by
      rw [getD_set_ne _ (fun hc => hnotmem (by rw [hc]; exact hj)) _ _]
      exact h1 j (List.mem_cons_of_mem a hj)
    have hxlt : ∀ j ∈ L, j < (px.set a 0).length := fun j hj => by
      rw [List.length_set]
      exact hlt j (List.mem_cons_of_mem a hj)
    obtain ⟨ihvf, ihpx⟩ := ih 1 (px.set a 0) (List.nodup_cons.mp hnd).2 hx1 hxlt
    rw [List.foldl_cons, hstep]
    constructor
    · intro _
      cases L with
      | nil => rfl
      | cons b L2 => exact ihvf (by simp)
    · intro j
      rw [ihpx j]
      by_cases hja : j = a
      · subst hja
        rw [if_neg hnotmem, if_pos (List.mem_cons_self j L)]
        exact getD_set_self _ _ _ halt
      · by_cases hjL : j ∈ L
        · rw [if_pos hjL, if_pos (List.mem_cons_of_mem a hjL)]
        · rw [if_neg hjL, if_neg (by simp [hja, hjL]),
              getD_set_ne _ (fun hc => hja hc.symm) _ _]

/-- Unpacking membership in one row's visit list. -/
theorem rowVisits_mem {x y width h v j : Nat}
    (hj : j ∈ rowVisits x y width h v) :
    ∃ w, w < width ∧ v &&& (0x80 >>> w) ≠ 0 ∧ j = (x + w) + (y + h) * 64 := by
  unfold rowVisits at hj
  obtain ⟨w, hw, rfl⟩ := List.mem_map.mp hj
  obtain ⟨hwr, hwb⟩ := List.mem_filter.mp hw
  exact ⟨w, List.mem_range.mp hwr, by simpa using hwb, rfl⟩

/-- Every visited index lies in the grid, at or after its row's start. -/
theorem visitsFrom_bounds (x y width : Nat) (hx : ∀ w, w < width → x + w < 64) :
    ∀ rows h j, j ∈ visitsFrom x y width rows h → (y + h) * 64 ≤ j ∧ j < 2048 := by
  intro rows
  induction rows with
  | nil => intro h j hj; cases hj
  | cons v rows ih =>
    intro h j hj
    simp only [visitsFrom] at hj
    rcases List.mem_append.mp hj with hj1 | hj2
    · by_cases hyh : y + h < 32
      · rw [if_pos hyh] at hj1
        obtain ⟨w, hw, _, rfl⟩ := rowVisits_mem hj1
        have := hx w hw
        omega
      · rw [if_neg hyh] at hj1
        cases hj1
    · have := ih (h + 1) j hj2
      omega

/-- The visit list never repeats an index. -/
theorem visitsFrom_nodup (x y width : Nat) (hx : ∀ w, w < width → x + w < 64) :
    ∀ rows h, (visitsFrom x y width rows h).Nodup := by
  intro rows
  induction rows with
  | nil => intro h; exact List.nodup_nil
  | cons v rows ih =>
    intro h
    simp only [visitsFrom]
    rw [List.nodup_append]
    refine ⟨?_, ih (h + 1), ?_⟩
    · by_cases hyh : y + h < 32
      · rw [if_pos hyh]
        unfold rowVisits
        exact List.Nodup.map (fun a b hab => by omega)
          (List.Nodup.filter _ (List.nodup_range width))
      · rw [if_neg hyh]
        exact List.nodup_nil
    · intro j hj1 hj2
      by_cases hyh : y + h < 32
      · rw [if_pos hyh] at hj1
        obtain ⟨w, hw, _, rfl⟩ := rowVisits_mem hj1
        have h1 := hx w hw
        have h2 := (visitsFrom_bounds x y width hx rows (h + 1) _ hj2).1
        omega
      · rw [if_neg hyh] at hj1
        cases hj1

/-- A set bit of an in-grid row produces its index in the visit list. -/
theorem visitsFrom_mem (x y width : Nat) :
    ∀ (rows : List Nat) (h0 h : Nat), h < rows.length → y + (h0 + h) < 32 →
      ∀ w, w < width → rows.getD h 0 &&& (0x80 >>> w) ≠ 0 →
      ((x + w) + (y + (h0 + h)) * 64) ∈ visitsFrom x y width rows h0 := by
  intro rows
  induction rows with
  | nil => intro h0 h hh; simp at hh
  | cons v rows ih =>
    intro h0 h hh hy w hw hbit
    simp only [visitsFrom]
    cases h with
    | zero =>
      apply List.mem_append_left
      rw [if_pos (by omega)]
      unfold rowVisits
      apply List.mem_map.mpr
      refine ⟨w, List.mem_filter.mpr ⟨List.mem_range.mpr hw, by simpa using hbit⟩, by
        have : h0 + 0 = h0 := rfl
        rw [this]⟩
    | succ h =>
      apply List.mem_append_right
      have hmem := ih (h0 + 1) h (by simpa using hh) (by omega) w hw
        (by simpa using hbit)
      have harith : y + (h0 + 1 + h) = y + (h0 + (h + 1)) := by omega
      rw [harith] at hmem
      exact hmem

set_option maxHeartbeats 1000000 in
/-- C9 (confirmed): from a fully cleared framebuffer, a sprite with in-grid
origin whose non-clipped on-grid portion has at least one set bit reports no
collision on its first draw; an immediately repeated identical draw reports
a collision and XORs every lit cell back off, leaving the framebuffer fully
cleared again. -/
theorem c9_draw_twice (sp : Sprite) (s : Screen)
    (hx : sp.x < 64) (hy : sp.y < 32) (hlen : sp.data.length ≤ 15)
    (hs : s.pixels = List.replicate 2048 0)
    (hbit : ∃ h w, h < sp.data.length ∧ sp.y + h < 32 ∧
      w < (if 64 - 8 ≤ sp.x then 64 - sp.x else 8) ∧
      sp.data.getD h 0 &&& (0x80 >>> w) ≠ 0) :
    ∃ s1 s2, s.draw sp = (some 0, s1) ∧ s1.draw sp = (some 1, s2) ∧
      s2.pixels = List.replicate 2048 0 := by
  have hxw : ∀ w, w < (if 64 - 8 ≤ sp.x then 64 - sp.x else 8) → sp.x + w < 64 := by
    intro w hw
    by_cases h56 : 64 - 8 ≤ sp.x
    · rw [if_pos h56] at hw; omega
    · rw [if_neg h56] at hw; omega
  have hguard : ¬(64 ≤ sp.x ∨ 32 ≤ sp.y) := by omega
  have hpx : s.pixels.length = 2048 := by rw [hs, List.length_replicate]
  have hfold := blitRows_foldl sp.x sp.y _ hxw hy sp.data 0 0 s.pixels hpx
    (by omega)
  have hnd := visitsFrom_nodup sp.x sp.y _ hxw sp.data 0
  have hbnd := visitsFrom_bounds sp.x sp.y _ hxw sp.data 0
  have hzero : ∀ j ∈ visitsFrom sp.x sp.y
      (if 64 - 8 ≤ sp.x then 64 - sp.x else 8) sp.data 0, s.pixels.getD j 0 = 0 := by
    intro j hj
    rw [hs]
    exact getD_replicate_lt _ _ (hbnd j hj).2
  have hlt : ∀ j ∈ visitsFrom sp.x sp.y
      (if 64 - 8 ≤ sp.x then 64 - sp.x else 8) sp.data 0, j < s.pixels.length := by
    intro j hj
    rw [hpx]
    exact (hbnd j hj).2
  obtain ⟨hvf1, hpx1⟩ := foldl_toggle_fresh _ 0 s.pixels hnd hzero hlt
  have hV : visitsFrom sp.x sp.y (if 64 - 8 ≤ sp.x then 64 - sp.x else 8)
      sp.data 0 ≠ [] := by
    obtain ⟨h, w, hh, hyh, hw, hb⟩ := hbit
    have := visitsFrom_mem sp.x sp.y _ sp.data 0 h hh (by omega) w hw hb
    exact List.ne_nil_of_mem (by simpa using this)
  set V := visitsFrom sp.x sp.y (if 64 - 8 ≤ sp.x then 64 - sp.x else 8)
    sp.data 0 with hVdef
  set F1 := List.foldl toggleStep (0, s.pixels) V with hF1
  have hdraw1 : s.draw sp = (some F1.1, ⟨F1.2⟩) := by
    unfold Screen.draw
    rw [if_neg hguard]
    dsimp only
    rw [hfold]
  have hlen1 : F1.2.length = 2048 := by
    rw [hF1, foldl_toggleStep_length]; exact hpx
  have hone : ∀ j ∈ V, F1.2.getD j 0 = 1 := by
    intro j hj
    rw [hpx1 j, if_pos hj]
  have hlt1 : ∀ j ∈ V, j < F1.2.length := by
    intro j hj
    rw [hlen1]; exact (hbnd j hj).2
  obtain ⟨hvf2, hpx2⟩ := foldl_toggle_lit V 0 F1.2 hnd hone hlt1
  have hfold2 := blitRows_foldl sp.x sp.y _ hxw hy sp.data 0 0 F1.2 hlen1
    (by omega)
  set F2 := List.foldl toggleStep (0, F1.2) V with hF2
  have hdraw2 : (⟨F1.2⟩ : Screen).draw sp = (some F2.1, ⟨F2.2⟩) := by
    unfold Screen.draw
    rw [if_neg hguard]
    dsimp only
    rw [hfold2]
  have hall0 : ∀ j, F2.2.getD j 0 = 0 := by
    intro j
    rw [hpx2 j]
    by_cases hj : j ∈ V
    · rw [if_pos hj]
    · rw [if_neg hj, hpx1 j, if_neg hj, hs]
      by_cases hjlt : j < 2048
      · exact getD_replicate_lt _ _ hjlt
      · rw [List.getD_eq_getElem?_getD, List.getElem?_eq_none
          (by rw [List.length_replicate]; omega)]
        rfl
  have hlen2 : F2.2.length = 2048 := by
    rw [hF2, foldl_toggleStep_length]; exact hlen1
  refine ⟨⟨F1.2⟩, ⟨F2.2⟩, ?_, ?_, ?_⟩
  · rw [hdraw1, hvf1]
  · rw [hdraw2, hvf2 hV]
  · apply List.ext_getElem (by rw [hlen2, List.length_replicate])
    intro n h1 h2
    rw [← List.getD_eq_getElem F2.2 0 h1, hall0 n]
    rw [List.getElem_replicate]

set_option maxRecDepth 8000 in
/-- C9 witness: the theorem at a concrete 5-row sprite (the font glyph for
3) drawn twice at (10, 10) on a cleared screen. -/
theorem c9_draw_twice_witness :
    ∃ s1 s2, Screen.draw ⟨List.replicate 2048 0⟩ ⟨10, 10, [0xF0, 0x90, 0xF0, 0x10, 0xF0]⟩ =
        (some 0, s1) ∧
      s1.draw ⟨10, 10, [0xF0, 0x90, 0xF0, 0x10, 0xF0]⟩ = (some 1, s2) ∧
      s2.pixels = List.replicate 2048 0 :=
  c9_draw_twice ⟨10, 10, [0xF0, 0x90, 0xF0, 0x10, 0xF0]⟩ ⟨List.replicate 2048 0⟩
    (by decide) (by decide) (by decide) rfl
    ⟨0, 0, by decide, by decide, by decide, by decide⟩

end Chip8
